import Mathlib

/-!
Shallow embedding of the day-24 ALU analyzer of `bwbeach/advent-of-code-2021`
(files `src/day24_alu.rs`, `src/value_range.rs`, `src/day24.rs`), together with
theorems settling the specification claims about it.

Modelling conventions:
* Rust `i64` arithmetic is modelled by `Int`; the Rust operators `/` and `%`
  (truncation toward zero) are `Int.tdiv` and `Int.tmod`.  Overflow is not
  modelled: every value appearing in this development is tiny.
* A Rust panic is modelled as `none` of an (outer) `Option` layer.  A Rust
  function that itself returns `Option<T>` is therefore modelled with type
  `Option (Option T)`: the outer layer is the panic layer, the inner layer is
  the source's own `Option`.
* The simplifier of `day24.rs` contains a rewrite-until-fixed-point loop and a
  mutual recursion whose termination is not structural; both are modelled with
  an explicit fuel parameter.  Running out of fuel yields `none`, i.e. is
  treated like non-completion; every theorem below only ever relies on runs
  that do complete (`some`).
-/

namespace Aoc21

/-! ## day24_alu.rs: registers, inputs, operators, instructions -/

/-- Names of the four ALU registers, `'w'` through `'z'` in the source.
Register storage is indexed by `RegisterName::index` (0 to 3); here a register
file is a 4-field structure indexed by this enum. -/
inductive RegisterName where
  | w
  | x
  | y
  | z
deriving DecidableEq, Repr

/-- Names of the fourteen inputs, `'a'` through `'n'` in the source, identified
with their `InputName::index` (0 to 13). -/
abbrev InputName := Fin 14

/-- Source `InputName::next`: the next input name, if any (`'n'`, index 13, is
the last). -/
def InputName.next (i : InputName) : Option InputName :=
  if h : i.val + 1 < 14 then some ⟨i.val + 1, h⟩ else none

/-- Source `InputName::first`: the input named `'a'`. -/
def InputName.first : InputName := ⟨0, by decide⟩

/-- Error type of the `day24_alu` module. -/
inductive AluError where
  | BadRegisterName (s : String)
  | NotRegisterOrConstant (s : String)
  | NotOpName (s : String)
  | BadInstruction (s : String)
deriving DecidableEq, Repr

/-- Right-hand side of an `Operate` instruction: a register or a constant. -/
inductive RegisterOrConstant where
  | Register (r : RegisterName)
  | Constant (n : Int)
deriving DecidableEq, Repr

/-- The five ALU operators. -/
inductive OpName where
  | Add
  | Mul
  | Div
  | Mod
  | Eql
deriving DecidableEq, Repr

/-- Source `OpName::perform`.  Rust `/` and `%` on `i64` truncate toward zero,
hence `Int.tdiv` / `Int.tmod`.  The panics (`Div`/`Mod` by zero, `Mod` with a
negative operand) are the `none` cases. -/
def OpName.perform (op : OpName) (a b : Int) : Option Int :=
  match op with
  | .Add => some (a + b)
  | .Mul => some (a * b)
  | .Div => if b = 0 then none else some (a.tdiv b)
  | .Mod =>
    if b = 0 then none
    else if a < 0 ∨ b < 0 then none
    else some (a.tmod b)
  | .Eql => some (if a = b then 1 else 0)

/-- One ALU instruction: `Inp r` or `Op op r rhs`. -/
inductive Instruction where
  | Inp (r : RegisterName)
  | Op (op : OpName) (r : RegisterName) (rhs : RegisterOrConstant)
deriving DecidableEq, Repr

/-- Destination register of an instruction (the only register it writes). -/
def Instruction.dest : Instruction → RegisterName
  | .Inp r => r
  | .Op _ r _ => r

/-- A register file: one value of type `α` per register, standing for the
source's 4-element arrays indexed by `RegisterName::index`. -/
structure RegFile (α : Type) where
  w : α
  x : α
  y : α
  z : α
deriving DecidableEq, Repr

/-- Read a register. -/
def RegFile.get {α : Type} (f : RegFile α) : RegisterName → α
  | .w => f.w
  | .x => f.x
  | .y => f.y
  | .z => f.z

/-- Write a register, leaving the other three unchanged (source
`set_register` and the in-place array writes). -/
def RegFile.set {α : Type} (f : RegFile α) : RegisterName → α → RegFile α
  | .w, v => { f with w := v }
  | .x, v => { f with x := v }
  | .y, v => { f with y := v }
  | .z, v => { f with z := v }

/-- Constant register file. -/
def RegFile.const {α : Type} (v : α) : RegFile α := ⟨v, v, v, v⟩

/-! ## value_range.rs: the interval domain -/

/-- A closed integer interval `[start, end]` (source struct `ValueRange`). -/
structure ValueRange where
  start : Int
  «end» : Int
deriving DecidableEq, Repr

namespace ValueRange

/-- Source `ValueRange::new`: panics (here `none`) when `end < start`. -/
def new (start «end» : Int) : Option ValueRange :=
  if «end» < start then none else some ⟨start, «end»⟩

/-- Source `ValueRange::contains`. -/
def contains (r : ValueRange) (a : Int) : Bool :=
  r.start ≤ a && a ≤ r.«end»

/-- Source `ValueRange::add_forward` (struct literal, no ordering check). -/
def add_forward (a b : ValueRange) : ValueRange :=
  ⟨a.start + b.start, a.«end» + b.«end»⟩

/-- Source `ValueRange::add_backward`.  It never panics and always returns
`Some`, via a struct literal. -/
def add_backward (b z : ValueRange) : Option (Option ValueRange) :=
  some (some ⟨z.start - b.«end», z.«end» - b.start⟩)

/-- Source `ValueRange::mul_forward`: min/max of the four corner products. -/
def mul_forward (a b : ValueRange) : ValueRange :=
  ⟨min (min (a.start * b.start) (a.start * b.«end»))
      (min (a.«end» * b.start) (a.«end» * b.«end»)),
   max (max (a.start * b.start) (a.start * b.«end»))
      (max (a.«end» * b.start) (a.«end» * b.«end»))⟩

/-- Source `ValueRange::mul_backward`: `None` when the known range contains 0,
a panic when the result range starts below 0, otherwise a struct literal
(without the `new` ordering check). -/
def mul_backward (b z : ValueRange) : Option (Option ValueRange) :=
  if b.contains 0 then some none
  else if z.start < 0 then none
  else some (some ⟨(z.start + b.«end» - 1).tdiv b.«end», z.«end».tdiv b.start⟩)

/-- Source `ValueRange::div_forward`: panics on a divisor range containing 0 or
on negative operand ranges. -/
def div_forward (a b : ValueRange) : Option ValueRange :=
  if b.contains 0 then none
  else if a.start < 0 ∨ b.start < 0 then none
  else some ⟨a.start.tdiv b.«end», a.«end».tdiv b.start⟩

/-- Source `ValueRange::div_backward_left`: panics on a negative result range
or a non-positive divisor range, then builds the answer with `new` (whose
ordering panic is propagated). -/
def div_backward_left (b z : ValueRange) : Option (Option ValueRange) :=
  if z.start < 0 then none
  else if b.start ≤ 0 then none
  else
    match new (b.start * z.start) (b.«end» * z.«end» + b.«end» - 1) with
    | none => none
    | some r => some (some r)

/-- Source `ValueRange::mod_forward`. -/
def mod_forward (a b : ValueRange) : Option ValueRange :=
  if b.contains 0 then none
  else if a.start < 0 ∨ b.start < 0 then none
  else if a.«end» < b.start then some a
  else some ⟨0, b.«end» - 1⟩

/-- Source `ValueRange::intersect`: the overlap, or `None` when empty (the
inner `new` call cannot panic because `start ≤ end` was just checked). -/
def intersect (a b : ValueRange) : Option ValueRange :=
  let start := max a.start b.start
  let «end» := min a.«end» b.«end»
  if start ≤ «end» then some ⟨start, «end»⟩ else none

/-- Source `ValueRange::eql_forward` (the `new` calls are on literal ordered
pairs and cannot panic). -/
def eql_forward (a b : ValueRange) : ValueRange :=
  match intersect a b with
  | some _ => if a.start = a.«end» ∧ a = b then ⟨1, 1⟩ else ⟨0, 1⟩
  | none => ⟨0, 0⟩

/-- Source `ValueRange::eql_backward` (never panics; the `new` calls are on
single points). -/
def eql_backward (a b z : ValueRange) : Option (Option ValueRange) :=
  if z = ⟨0, 0⟩ ∧ b.start = b.«end» ∧ a.start + 1 = a.«end» then
    if a.start = b.start then some (some ⟨a.«end», a.«end»⟩)
    else some (some ⟨a.start, a.start⟩)
  else if z = ⟨1, 1⟩ then some (some b)
  else some none

end ValueRange

/-- Source `OpName::perform_on_range`: forward transfer function per operator
(`Div`/`Mod` may panic). -/
def OpName.perform_on_range (op : OpName) (lhs_range rhs_range : ValueRange) :
    Option ValueRange :=
  match op with
  | .Add => some (ValueRange.add_forward lhs_range rhs_range)
  | .Mul => some (ValueRange.mul_forward lhs_range rhs_range)
  | .Div => ValueRange.div_forward lhs_range rhs_range
  | .Mod => ValueRange.mod_forward lhs_range rhs_range
  | .Eql => some (ValueRange.eql_forward lhs_range rhs_range)

/-! ## day24.rs: polynomials and symbolic expressions -/

/-- A linear polynomial of the fourteen inputs: 14 input coefficients plus a
constant at index 14 (source struct `Polynomial`, field `coefficients:
[i64; 15]`). -/
structure Polynomial where
  coefficients : Fin 15 → Int
deriving DecidableEq

namespace Polynomial

/-- Source `Polynomial::constant`. -/
def constant (n : Int) : Polynomial :=
  ⟨fun i => if i.val = 14 then n else 0⟩

/-- Source `Polynomial::input`. -/
def input (input_name : InputName) : Polynomial :=
  ⟨fun i => if i.val = input_name.val then 1 else 0⟩

/-- Source `Polynomial::times`. -/
def times (p : Polynomial) (scalar : Int) : Polynomial :=
  ⟨fun i => p.coefficients i * scalar⟩

/-- Source `Polynomial::modulo`: `Mod.perform` applied to every coefficient;
any panic among the 15 applications (zero or negative modulus, negative
coefficient) is a panic of the whole call. -/
def modulo (p : Polynomial) (scalar : Int) : Option Polynomial :=
  if ∀ i : Fin 15, (OpName.Mod.perform (p.coefficients i) scalar).isSome then
    some ⟨fun i => (OpName.Mod.perform (p.coefficients i) scalar).getD 0⟩
  else none

/-- Source `Polynomial::get_constant`: the constant, provided all 14 input
coefficients are zero. -/
def get_constant (p : Polynomial) : Option Int :=
  if ∀ i : Fin 14, p.coefficients i.castSucc = 0 then some (p.coefficients 14)
  else none

/-- Lower end computed by `Polynomial::get_range` (each input at 1). -/
def get_range_start (p : Polynomial) : Int :=
  p.coefficients 14 + ∑ i : Fin 14, p.coefficients i.castSucc * 1

/-- Upper end computed by `Polynomial::get_range` (each input at 9). -/
def get_range_end (p : Polynomial) : Int :=
  p.coefficients 14 + ∑ i : Fin 14, p.coefficients i.castSucc * 9

/-- Source `Polynomial::get_range`; the final `ValueRange::new` panics when
the computed ends are out of order (which happens for negative
coefficients). -/
def get_range (p : Polynomial) : Option ValueRange :=
  ValueRange.new p.get_range_start p.get_range_end

/-- Source `Polynomial::div`: divide through by a scalar when the worst-case
remainder sum stays below the scalar.  The raw `%` of Rust panics only on a
zero divisor, hence the single panic case `scalar = 0`; the inner
`Div.perform` then cannot panic.  Result: outer layer panic, inner layer the
source's `Option`. -/
def div (p : Polynomial) (scalar : Int) : Option (Option Polynomial) :=
  if scalar = 0 then none
  else
    let max_remainder :=
      (p.coefficients 14).tmod scalar +
        ∑ i : Fin 14, ((p.coefficients i.castSucc).tmod scalar) * 9
    if max_remainder < scalar then
      some (some ⟨fun i => (p.coefficients i).tdiv scalar⟩)
    else some none

/-- Source `impl ops::Add for Polynomial`. -/
def add (p q : Polynomial) : Polynomial :=
  ⟨fun i => p.coefficients i + q.coefficients i⟩

instance : Add Polynomial := ⟨add⟩

end Polynomial

/-- A symbolic expression: a polynomial leaf or an operator node (source
`ExprDetails` behind the `Rc`-sharing wrapper `Expr`; sharing is semantically
irrelevant, equality is structural in both). -/
inductive Expr where
  | poly (p : Polynomial)
  | op (op_name : OpName) (lhs rhs : Expr)
deriving DecidableEq

namespace Expr

/-- Source `Expr::constant`. -/
def constant (n : Int) : Expr := .poly (Polynomial.constant n)

/-- Source `Expr::input`. -/
def input (input_name : InputName) : Expr := .poly (Polynomial.input input_name)

/-- Source `Expr::get_constant`. -/
def get_constant : Expr → Option Int
  | .poly p => p.get_constant
  | .op _ _ _ => none

/-- Source `Expr::evaluate`; inputs are a 14-vector.  `perform` panics (model:
`none`) propagate. -/
def evaluate : Expr → (Fin 14 → Int) → Option Int
  | .poly p, inputs =>
    some (p.coefficients 14 + ∑ i : Fin 14, inputs i * p.coefficients i.castSucc)
  | .op op_name lhs rhs, inputs =>
    match lhs.evaluate inputs, rhs.evaluate inputs with
    | some a, some b => op_name.perform a b
    | _, _ => none

/-- Source `Expr::get_range`; panics of the range operators propagate. -/
def get_range : Expr → Option ValueRange
  | .poly p => p.get_range
  | .op op_name lhs rhs =>
    match lhs.get_range, rhs.get_range with
    | some a, some b => op_name.perform_on_range a b
    | _, _ => none

end Expr

/-! ## day24.rs: the simplifier

The source functions `simplify`, `simplify_in_mod` and
`simplify_in_mod_helper` are mutually recursive and `State::after` runs
`simplify` in a rewrite-until-`None` loop; all four get a fuel parameter.
The source's two-iteration `both_ways` loops are unrolled into the
equivalent sequential checks (a dead duplicate check in the `Add` case is
dropped).  Result type: outer `Option` = panic, inner `Option` = "no rewrite
applied" exactly as in the source. -/

/-- Tail of `simplify`'s `Div` arm: drop the division when the whole
expression's range is exactly `[0,0]` (source lines using
`expr.get_range()`). -/
def simplifyDivRange (expr : Expr) : Option (Option Expr) :=
  match expr.get_range with
  | none => none
  | some r => if r = ⟨0, 0⟩ then some (some (Expr.constant 0)) else some none

/-- Tail of `simplify`'s `Mod` arm: drop the modulus when the left range lies
inside `[0, rhs.start)`. -/
def simplifyModRange (lhs rhs : Expr) : Option (Option Expr) :=
  match lhs.get_range, rhs.get_range with
  | some lhs_range, some rhs_range =>
    if 0 ≤ lhs_range.start ∧ lhs_range.«end» < rhs_range.start then
      some (some lhs)
    else some none
  | _, _ => none

mutual

/-- Source `simplify` (one rewrite step, or inner `none` when no rule fires). -/
def simplify : Nat → Expr → Option (Option Expr)
  | 0, _ => none
  | _ + 1, .poly _ => some none
  | fuel + 1, .op op_name lhs rhs =>
    match lhs.get_constant, rhs.get_constant with
    | some lhs_value, some rhs_value =>
      match op_name.perform lhs_value rhs_value with
      | none => none
      | some v => some (some (.poly (Polynomial.constant v)))
    | _, _ =>
      match op_name with
      | .Add =>
        if rhs.get_constant = some 0 then some (some lhs)
        else
          match lhs, rhs with
          | .poly poly_a, .poly poly_b => some (some (.poly (poly_a + poly_b)))
          | _, _ =>
            if lhs.get_constant = some 0 then some (some rhs)
            else some none
      | .Mul =>
        if lhs.get_constant = some 0 then some (some (Expr.constant 0))
        else if lhs.get_constant = some 1 then some (some rhs)
        else
          match lhs, rhs.get_constant with
          | .poly poly_a, some n => some (some (.poly (poly_a.times n)))
          | _, _ =>
            if rhs.get_constant = some 0 then some (some (Expr.constant 0))
            else if rhs.get_constant = some 1 then some (some lhs)
            else
              match rhs, lhs.get_constant with
              | .poly poly_b, some n => some (some (.poly (poly_b.times n)))
              | _, _ =>
                if (rhs.get_constant).isSome then
                  some (some (.op .Mul rhs lhs))
                else some none
      | .Div =>
        if lhs.get_constant = some 0 then some (some (Expr.constant 0))
        else
          match rhs.get_constant with
          | some n =>
            if n = 1 then some (some lhs)
            else
              match lhs with
              | .poly polynomial =>
                match polynomial.div n with
                | none => none
                | some (some simpler) => some (some (.poly simpler))
                | some none => simplifyDivRange (.op op_name lhs rhs)
              | _ => simplifyDivRange (.op op_name lhs rhs)
          | none => simplifyDivRange (.op op_name lhs rhs)
      | .Mod =>
        match rhs.get_constant with
        | some modulus =>
          match lhs with
          | .poly lhs_poly =>
            match lhs_poly.modulo modulus with
            | none => none
            | some p => some (some (.poly p))
          | _ =>
            match simplify_in_mod fuel lhs modulus with
            | none => none
            | some (some simplified) => some (some (.op .Mod simplified rhs))
            | some none => simplifyModRange lhs rhs
        | none => simplifyModRange lhs rhs
      | .Eql =>
        match lhs.get_range, rhs.get_range with
        | some lhs_range, some rhs_range =>
          if max lhs_range.start rhs_range.start ≤
              min lhs_range.«end» rhs_range.«end» then some none
          else some (some (Expr.constant 0))
        | _, _ => none

/-- Source `simplify_in_mod`. -/
def simplify_in_mod : Nat → Expr → Int → Option (Option Expr)
  | 0, _, _ => none
  | fuel + 1, expr, modulus =>
    match simplify_in_mod_helper fuel expr modulus with
    | none => none
    | some none => some none
    | some (some simpler) =>
      match simplify fuel simpler with
      | none => none
      | some (some even_simpler) => some (some even_simpler)
      | some none => some (some simpler)

/-- Source `simplify_in_mod_helper`.  The raw `n % modulus` of the constant
case panics on a zero modulus. -/
def simplify_in_mod_helper : Nat → Expr → Int → Option (Option Expr)
  | 0, _, _ => none
  | _ + 1, .poly polynomial, modulus =>
    match polynomial.get_constant with
    | some n =>
      if modulus = 0 then none
      else if n.tmod modulus ≠ n then
        some (some (Expr.constant (n.tmod modulus)))
      else some none
    | none => some none
  | fuel + 1, .op op_name lhs rhs, modulus =>
    match op_name with
    | .Add =>
      match simplify_in_mod fuel lhs modulus with
      | none => none
      | some (some simplified_lhs) => some (some (.op op_name simplified_lhs rhs))
      | some none =>
        match simplify_in_mod fuel rhs modulus with
        | none => none
        | some (some simplified_rhs) => some (some (.op op_name lhs simplified_rhs))
        | some none => some none
    | .Mul =>
      match simplify_in_mod fuel lhs modulus with
      | none => none
      | some (some simplified_lhs) => some (some (.op op_name simplified_lhs rhs))
      | some none =>
        match simplify_in_mod fuel rhs modulus with
        | none => none
        | some (some simplified_rhs) => some (some (.op op_name lhs simplified_rhs))
        | some none => some none
    | _ => some none

end

/-- Rewrite loop of `State::after`: apply `simplify` until it reports no
rewrite. -/
def simplifyLoop : Nat → Expr → Option Expr
  | 0, _ => none
  | fuel + 1, expr =>
    match simplify fuel expr with
    | none => none
    | some none => some expr
    | some (some simplified) => simplifyLoop fuel simplified

/-! ## day24.rs: symbolic execution state and concrete interpreter -/

/-- Symbolic execution state (source struct `State`). -/
structure State where
  next_input : Option InputName
  registers : RegFile Expr
deriving DecidableEq

/-- Source `set_register`. -/
def set_register (register_name : RegisterName) (value : Expr)
    (old_registers : RegFile Expr) : RegFile Expr :=
  old_registers.set register_name value

/-- Source `State::start`. -/
def State.start : State :=
  ⟨some InputName.first, RegFile.const (Expr.constant 0)⟩

/-- Source `State::after`: symbolically execute one instruction ("no more
input names" is a panic; the simplify loop gets the given fuel). -/
def State.after (fuel : Nat) (s : State) (instruction : Instruction) :
    Option State :=
  match instruction with
  | .Inp register_name =>
    match s.next_input with
    | some input_name =>
      some ⟨input_name.next,
        set_register register_name (Expr.input input_name) s.registers⟩
    | none => none
  | .Op op_name lhs_register_name register_or_constant =>
    let lhs := s.registers.get lhs_register_name
    let rhs :=
      match register_or_constant with
      | .Register rhs_register_name => s.registers.get rhs_register_name
      | .Constant n => Expr.constant n
    match simplifyLoop fuel (.op op_name lhs rhs) with
    | none => none
    | some expr =>
      some ⟨s.next_input, set_register lhs_register_name expr s.registers⟩

/-- Symbolic execution of a whole program from `State.start`. -/
def State.runAll (fuel : Nat) : State → List Instruction → Option State
  | s, [] => some s
  | s, instruction :: rest =>
    match s.after fuel instruction with
    | none => none
    | some s' => s'.runAll fuel rest

/-- Register-update part of `evaluate_instructions` and of the `Op` arm of
`search`: both read the two operands, apply `perform` and store the result in
the destination register. -/
def evalStep (registers : RegFile Int) (op_name : OpName)
    (lhs_register_name : RegisterName) (rhs : RegisterOrConstant) :
    Option (RegFile Int) :=
  let rhs_value :=
    match rhs with
    | .Constant n => n
    | .Register rhs_register_name => registers.get rhs_register_name
  match op_name.perform (registers.get lhs_register_name) rhs_value with
  | none => none
  | some v => some (registers.set lhs_register_name v)

/-- Source `evaluate_instructions`, generalized to return the whole register
file; inputs are consumed one per `Inp` (running out is the model of the
source's out-of-bounds panic). -/
def evalSteps : List Instruction → RegFile Int → List Int → Option (RegFile Int)
  | [], registers, _ => some registers
  | .Inp register_name :: rest, registers, inputs =>
    match inputs with
    | [] => none
    | d :: ds => evalSteps rest (registers.set register_name d) ds
  | .Op op_name lhs_register_name rhs :: rest, registers, inputs =>
    match evalStep registers op_name lhs_register_name rhs with
    | none => none
    | some registers' => evalSteps rest registers' inputs

/-- Source `evaluate_instructions`: run the program on four zero registers and
return the final value of register `z` (`registers[3]`). -/
def evaluate_instructions (instructions : List Instruction) (inputs : List Int) :
    Option Int :=
  (evalSteps instructions (RegFile.const 0) inputs).map RegFile.z

/-! ## day24.rs: forward ranges, backward limits, pruned search -/

/-- Per-instruction register ranges (source `type Ranges = [ValueRange; 4]`). -/
abbrev Ranges := RegFile ValueRange

/-- Per-instruction optional limits (source `type Limits`). -/
abbrev Limits := RegFile (Option ValueRange)

/-- Source struct `Info`: one record per instruction. -/
structure Info where
  instruction : Instruction
  ranges : Ranges
  limits : Limits
deriving DecidableEq

/-- Source `ranges_after`: forward range transfer for one instruction
(`perform_on_range` may panic). -/
def ranges_after (prev_ranges : Ranges) (instruction : Instruction) :
    Option Ranges :=
  match instruction with
  | .Inp register_name => some (prev_ranges.set register_name ⟨1, 9⟩)
  | .Op op_name register_name rhs =>
    let lhs_range := prev_ranges.get register_name
    let rhs_range :=
      match rhs with
      | .Register rhs_reg_name => prev_ranges.get rhs_reg_name
      | .Constant n => ValueRange.mk n n
    match op_name.perform_on_range lhs_range rhs_range with
    | none => none
    | some r => some (prev_ranges.set register_name r)

/-- Source `left_limit`. -/
def left_limit (op_name : OpName) (left right result : ValueRange) :
    Option (Option ValueRange) :=
  match op_name with
  | .Add => ValueRange.add_backward right result
  | .Mul => ValueRange.mul_backward right result
  | .Div => ValueRange.div_backward_left right result
  | .Eql => ValueRange.eql_backward left right result
  | .Mod => some none

/-- Source `right_limit`. -/
def right_limit (op_name : OpName) (left right result : ValueRange) :
    Option (Option ValueRange) :=
  match op_name with
  | .Add => ValueRange.add_backward left result
  | .Mul => ValueRange.mul_backward left result
  | .Eql => ValueRange.eql_backward right left result
  | _ => some none

/-- Source `limit_range`: intersect a range with an optional limit; the
source's `unwrap` on an empty intersection is a panic. -/
def limit_range (range : ValueRange) (limit : Option ValueRange) :
    Option ValueRange :=
  match limit with
  | some lim => ValueRange.intersect range lim
  | none => some range

/-- One reverse-walk step of the backward pass of `day_24` (the body of its
`for i in (0..infos.len()).rev()` loop): given the forward ranges before and
after the instruction and the limits arriving from later instructions
(already recorded into this instruction's `Info`), produce the limits passed
on to the previous instruction. -/
def backwardStep (prevRanges : Ranges) (instruction : Instruction)
    (ranges : Ranges) (limitsIn : Limits) : Option Limits :=
  match instruction with
  | .Inp r => some (limitsIn.set r none)
  | .Op op_name lhs rhs =>
    let lhs_range := prevRanges.get lhs
    let rhs_rangeP :=
      match rhs with
      | .Constant n => some (ValueRange.mk n n)
      | .Register r => limit_range (ranges.get r) (limitsIn.get r)
    match rhs_rangeP with
    | none => none
    | some rhs_range =>
      let result_range := (limitsIn.get lhs).getD (ranges.get lhs)
      match left_limit op_name lhs_range rhs_range result_range with
      | none => none
      | some ll =>
        match limit_range lhs_range ll with
        | none => none
        | some lhs_limited_range =>
          let leftLim :=
            if lhs_limited_range ≠ lhs_range then some lhs_limited_range
            else none
          let limits1 := limitsIn.set lhs leftLim
          match rhs with
          | .Constant _ => some limits1
          | .Register rhs_reg =>
            match limit_range rhs_range (limits1.get rhs_reg) with
            | none => none
            | some rhs_original_limited_range =>
              match right_limit op_name lhs_range rhs_range result_range with
              | none => none
              | some rl =>
                match limit_range rhs_original_limited_range rl with
                | none => none
                | some rhs_limited_range =>
                  let rightLim :=
                    if rhs_limited_range ≠ ranges.get rhs_reg then
                      some rhs_limited_range
                    else none
                  some (if rightLim ≠ limits1.get rhs_reg then
                      limits1.set rhs_reg rightLim
                    else limits1)

/-- Register ranges at program start: all `[0,0]`. -/
def startRanges : Ranges := RegFile.const ⟨0, 0⟩

/-- Limits behind the last instruction: `z` must be exactly `[0,0]`. -/
def initLimits : Limits := ⟨none, none, none, some ⟨0, 0⟩⟩

/-- Forward pass of `day_24`: the instruction list paired with the register
ranges after each instruction. -/
def forwardInfos : Ranges → List Instruction → Option (List (Instruction × Ranges))
  | _, [] => some []
  | prev, instruction :: rest =>
    match ranges_after prev instruction with
    | none => none
    | some r =>
      match forwardInfos r rest with
      | none => none
      | some l => some ((instruction, r) :: l)

/-- Backward pass of `day_24`, expressed as recursion over the program
(threading the `limits` array from the back): returns the limits flowing out
of the front together with the completed `Info` records. -/
def backPass (prevRanges : Ranges) :
    List (Instruction × Ranges) → Option (Limits × List Info)
  | [] => some (initLimits, [])
  | (instruction, ranges) :: rest =>
    match backPass ranges rest with
    | none => none
    | some (limitsIn, infosRest) =>
      match backwardStep prevRanges instruction ranges limitsIn with
      | none => none
      | some limitsOut =>
        some (limitsOut, ⟨instruction, ranges, limitsIn⟩ :: infosRest)

/-- Analysis part of `day_24`: forward ranges then backward limits. -/
def analyze (program : List Instruction) : Option (List Info) :=
  match forwardInfos startRanges program with
  | none => none
  | some fr =>
    match backPass startRanges fr with
    | none => none
    | some (_, infos) => some infos

/-- Digit-loop of the `Inp` arm of `search`: try each candidate in order,
returning the first successful recursive result; a panic (`none`) anywhere
aborts everything. -/
def firstHit (f : Int → Option (Option Int)) : List Int → Option (Option Int)
  | [] => some none
  | d :: ds =>
    match f d with
    | none => none
    | some (some answer) => some (some answer)
    | some none => firstHit f ds

/-- The `Op` arm of `search`: perform the operation, prune (inner `none`) when
the destination register's limit excludes the new value. -/
def searchStep (registers : RegFile Int) (op_name : OpName)
    (register : RegisterName) (rhs : RegisterOrConstant)
    (limit : Option ValueRange) : Option (Option (RegFile Int)) :=
  let rhs_value :=
    match rhs with
    | .Constant n => n
    | .Register rhs_reg => registers.get rhs_reg
  match op_name.perform (registers.get register) rhs_value with
  | none => none
  | some new_value =>
    match limit with
    | some lim =>
      if lim.contains new_value then
        some (some (registers.set register new_value))
      else some none
    | none => some (some (registers.set register new_value))

/-- Source `bindings`-to-answer conversion at the success leaf of `search`. -/
def toNumber (bindings : List Int) : Int :=
  bindings.foldl (fun result b => result * 10 + b) 0

/-- Source `search`: depth-first over the remaining instructions, carrying the
concrete registers, the 14 slots of digit bindings, and the index of the next
binding.  Inner `none` = "no answer on this branch" (the source's `None`),
outer `none` = panic. -/
def search (order : List Int) :
    List Info → RegFile Int → List Int → Nat → Option (Option Int)
  | [], registers, bindings, _ =>
    if registers.z = 0 then some (some (toNumber bindings)) else some none
  | info :: rest, registers, bindings, input_counter =>
    match info.instruction with
    | .Inp reg_name =>
      firstHit
        (fun value =>
          search order rest (registers.set reg_name value)
            (bindings.set input_counter value) (input_counter + 1))
        order
    | .Op op_name register rhs =>
      match searchStep registers op_name register rhs
          (info.limits.get register) with
      | none => none
      | some none => some none
      | some (some registers') =>
        search order rest registers' bindings input_counter

/-- Source `day_24` minus the line parsing: analysis, then search; the final
`unwrap` on a failed search is a panic. -/
def day_24 (program : List Instruction) (search_order : List Int) : Option Int :=
  match analyze program with
  | none => none
  | some infos =>
    match search search_order infos (RegFile.const 0) (List.replicate 14 0) 0 with
    | none => none
    | some none => none
    | some (some answer) => some answer

/-- Source `day_24_a`: descending digit order, 9 down to 1. -/
def day_24_a (program : List Instruction) : Option Int :=
  day_24 program [9, 8, 7, 6, 5, 4, 3, 2, 1]

/-- Source `day_24_b`: ascending digit order. -/
def day_24_b (program : List Instruction) : Option Int :=
  day_24 program [1, 2, 3, 4, 5, 6, 7, 8, 9]

/-- Number of `Inp` instructions of a program. -/
def countInp (program : List Instruction) : Nat :=
  (program.filter fun i => match i with | .Inp _ => true | _ => false).length

/-! ## day24_alu.rs: parsing -/

/-- Whitespace splitter over the character list (model of Rust
`str::split_whitespace`): maximal non-whitespace runs, in order.  The second
argument accumulates the current word, reversed. -/
def wordsAux : List Char → List Char → List String
  | [], [] => []
  | [], acc => [String.mk acc.reverse]
  | c :: cs, acc =>
    if c.isWhitespace then
      match acc with
      | [] => wordsAux cs []
      | _ => String.mk acc.reverse :: wordsAux cs []
    else wordsAux cs (c :: acc)

/-- Tokens of one source line. -/
def tokenize (s : String) : List String :=
  wordsAux s.toList []

/-- Source `RegisterName::from_str`: exactly one character, between `'w'` and
`'z'`. -/
def RegisterName.from_str (s : String) : Except AluError RegisterName :=
  match s.toList with
  | [c] =>
    if c < 'w' ∨ 'z' < c then .error (.BadRegisterName s)
    else if c = 'w' then .ok .w
    else if c = 'x' then .ok .x
    else if c = 'y' then .ok .y
    else .ok .z
  | _ => .error (.BadRegisterName s)

/-- Model of Rust `str::parse::<i64>`: optional sign followed by at least one
decimal digit (the `i64` overflow rejection is not modelled; every constant in
this development is tiny). -/
def parseI64 (s : String) : Option Int :=
  let digitsVal : List Char → Option Int := fun cs =>
    if cs = [] ∨ ¬ cs.all Char.isDigit then none
    else some (cs.foldl (fun acc c => acc * 10 + (c.toNat - '0'.toNat : Int)) 0)
  match s.toList with
  | '-' :: cs => (digitsVal cs).map Neg.neg
  | '+' :: cs => digitsVal cs
  | cs => digitsVal cs

/-- Source `RegisterOrConstant::from_str`: a register name, else an integer,
else an error naming the token. -/
def RegisterOrConstant.from_str (s : String) : Except AluError RegisterOrConstant :=
  match RegisterName.from_str s with
  | .ok register_name => .ok (.Register register_name)
  | .error _ =>
    match parseI64 s with
    | some n => .ok (.Constant n)
    | none => .error (.NotRegisterOrConstant s)

/-- Source `OpName::from_str`. -/
def OpName.from_str (s : String) : Except AluError OpName :=
  if s = "add" then .ok .Add
  else if s = "mul" then .ok .Mul
  else if s = "div" then .ok .Div
  else if s = "mod" then .ok .Mod
  else if s = "eql" then .ok .Eql
  else .error (.NotOpName s)

/-- Source `Instruction::from_str`.  The source indexes `words[0]` before any
length check, so an empty or whitespace-only line panics (outer `none`); every
other input yields the source's `Result` (inner `Except`). -/
def Instruction.from_str (s : String) : Option (Except AluError Instruction) :=
  match tokenize s with
  | [] => none
  | w0 :: rest =>
    if w0 = "inp" then
      match rest with
      | [w1] =>
        match RegisterName.from_str w1 with
        | .ok register_name => some (.ok (.Inp register_name))
        | .error e => some (.error e)
      | _ => some (.error (.BadInstruction s))
    else
      match rest with
      | [w1, w2] =>
        match OpName.from_str w0 with
        | .error e => some (.error e)
        | .ok op_name =>
          match RegisterName.from_str w1 with
          | .error e => some (.error e)
          | .ok register_name =>
            match RegisterOrConstant.from_str w2 with
            | .error e => some (.error e)
            | .ok rhs => some (.ok (.Op op_name register_name rhs))
      | _ => some (.error (.BadInstruction s))

deriving instance DecidableEq for Except

/-! ## Concrete probe programs used in the theorems -/

/-- Probe program exercising the polynomial-modulo rewrite: `inp z; mod z 5`. -/
def progC1 : List Instruction := [.Inp .z, .Op .Mod .z (.Constant 5)]

/-- Probe program exercising `eql_backward` during backward propagation:
`inp w; eql w 1; eql w 9`. -/
def progC2 : List Instruction :=
  [.Inp .w, .Op .Eql .w (.Constant 1), .Op .Eql .w (.Constant 9)]

/-- Probe program with exactly fourteen inputs whose backward limits prune the
first digit 9: `inp w; eql w 9; eql w 5` followed by thirteen `inp x`. -/
def progC3 : List Instruction :=
  [.Inp .w, .Op .Eql .w (.Constant 9), .Op .Eql .w (.Constant 5)] ++
    List.replicate 13 (.Inp .x)

/-- Probe polynomial with a negative input coefficient: first input minus
second input. -/
def polyC9 : Polynomial :=
  ⟨fun i => if i.val = 0 then 1 else if i.val = 1 then -1 else 0⟩

/-- Trivial `Info` list (fourteen `inp w`, no limits) used to run `search` on
a program that accepts every digit choice. -/
def infosC4 : List Info :=
  List.replicate 14 ⟨.Inp .w, startRanges, RegFile.const none⟩

/-- Helper for stating what `search` did with its bindings: write the digits
`ds` into consecutive slots of `bindings` starting at index `k`. -/
def writeFrom : List Int → Nat → List Int → List Int
  | bindings, _, [] => bindings
  | bindings, k, d :: ds => writeFrom (bindings.set k d) (k + 1) ds

/-- Endpoint property of the spec's backward-limit soundness check
(`check_backward_left` in the source tests): both endpoints of the candidate
range `r`, combined with some value of the known operand's range `b`, land in
the target range `z` under the concrete operator `op`, and one step beyond
either endpoint never does. -/
def endpoint_sound (op : Int → Int → Int) (b z r : ValueRange) : Prop :=
  (∃ bv, b.contains bv = true ∧ z.contains (op r.start bv) = true) ∧
  (∀ bv, b.contains bv = true → z.contains (op (r.start - 1) bv) = false) ∧
  (∃ bv, b.contains bv = true ∧ z.contains (op r.«end» bv) = true) ∧
  (∀ bv, b.contains bv = true → z.contains (op (r.«end» + 1) bv) = false)

/-- Exactness of `Polynomial::get_range` for a polynomial: the range is
returned without panicking, contains the value of the polynomial for every
choice of inputs in `1..=9`, and both ends are attained (at all-1 and all-9
inputs respectively). -/
def range_exact (p : Polynomial) : Prop :=
  Polynomial.get_range p = some ⟨p.get_range_start, p.get_range_end⟩ ∧
  (∀ inputs : Fin 14 → Int, (∀ i, 1 ≤ inputs i ∧ inputs i ≤ 9) →
    ∃ v, (Expr.poly p).evaluate inputs = some v ∧
      p.get_range_start ≤ v ∧ v ≤ p.get_range_end) ∧
  (Expr.poly p).evaluate (fun _ => 1) = some p.get_range_start ∧
  (Expr.poly p).evaluate (fun _ => 9) = some p.get_range_end

/-! ## Helper lemmas -/

theorem ValueRange.contains_eq_true_iff (r : ValueRange) (a : Int) :
    r.contains a = true ↔ r.start ≤ a ∧ a ≤ r.«end» := by
  simp [ValueRange.contains]

theorem ValueRange.contains_eq_false_iff (r : ValueRange) (a : Int) :
    r.contains a = false ↔ a < r.start ∨ r.«end» < a := by
  simp [ValueRange.contains]
  omega

theorem RegFile.get_set_ne {α : Type} (f : RegFile α) (r r' : RegisterName)
    (v : α) (h : r' ≠ r) : (f.set r v).get r' = f.get r' := by
  cases r <;> cases r' <;> simp_all [RegFile.set, RegFile.get]

theorem firstHit_some {f : Int → Option (Option Int)} {ds : List Int} {n : Int}
    (h : firstHit f ds = some (some n)) : ∃ d, f d = some (some n) := by
  induction ds with
  | nil => simp [firstHit] at h
  | cons d ds ih =>
    rw [firstHit] at h
    cases hfd : f d with
    | none => rw [hfd] at h; cases h
    | some o =>
      cases o with
      | none => rw [hfd] at h; exact ih h
      | some a =>
        rw [hfd] at h
        obtain rfl : a = n := by injection h with h; injection h
        exact ⟨d, hfd⟩

theorem countInp_cons_inp (r : RegisterName) (l : List Instruction) :
    countInp (.Inp r :: l) = countInp l + 1 := by
  simp [countInp, List.filter]

theorem countInp_cons_op (op : OpName) (r : RegisterName)
    (rhs : RegisterOrConstant) (l : List Instruction) :
    countInp (.Op op r rhs :: l) = countInp l := by
  simp [countInp, List.filter]

theorem searchStep_evalStep {registers : RegFile Int} {op_name : OpName}
    {register : RegisterName} {rhs : RegisterOrConstant}
    {limit : Option ValueRange} {registers' : RegFile Int}
    (h : searchStep registers op_name register rhs limit =
      some (some registers')) :
    evalStep registers op_name register rhs = some registers' := by
  simp only [searchStep] at h
  simp only [evalStep]
  split at h
  next => exact Option.noConfusion h
  next v heq =>
    split at h
    · split at h
      · injection h with h1
      · exact absurd h (by simp)
    · injection h with h1

theorem search_sound (order : List Int) (infos : List Info) :
    ∀ (registers : RegFile Int) (bindings : List Int) (k : Nat) (n : Int),
      search order infos registers bindings k = some (some n) →
      ∃ ds : List Int,
        ds.length = countInp (infos.map Info.instruction) ∧
        ∃ registers',
          evalSteps (infos.map Info.instruction) registers ds =
            some registers' ∧
          registers'.z = 0 ∧ n = toNumber (writeFrom bindings k ds) := by
  induction infos with
  | nil =>
    intro regs binds k n h
    by_cases hz : regs.z = 0
    · rw [search, if_pos hz] at h
      obtain rfl : toNumber binds = n := by injection h with h; injection h
      exact ⟨[], rfl, regs, rfl, hz, rfl⟩
    · rw [search, if_neg hz] at h
      injection h with h
      cases h
  | cons info rest ih =>
    intro regs binds k n h
    cases hinstr : info.instruction with
    | Inp r =>
      rw [search] at h
      simp only [hinstr] at h
      obtain ⟨d, hd⟩ := firstHit_some h
      obtain ⟨ds, hlen, regs', hsteps, hz, hn⟩ :=
        ih (regs.set r d) (binds.set k d) (k + 1) n hd
      refine ⟨d :: ds, ?_, regs', ?_, hz, hn⟩
      · simp only [List.map_cons, hinstr, countInp_cons_inp, List.length_cons]
        omega
      · simpa only [List.map_cons, hinstr, evalSteps] using hsteps
    | Op op_name register rhs =>
      rw [search] at h
      simp only [hinstr] at h
      split at h
      next => exact Option.noConfusion h
      next =>
        injection h with h1
        exact Option.noConfusion h1
      next regs2 hstep =>
        obtain ⟨ds, hlen, regs', hsteps, hz, hn⟩ := ih regs2 binds k n h
        refine ⟨ds, ?_, regs', ?_, hz, hn⟩
        · simpa only [List.map_cons, hinstr, countInp_cons_op] using hlen
        · simp only [List.map_cons, hinstr, evalSteps,
            searchStep_evalStep hstep]
          exact hsteps

theorem take_succ_set (l : List Int) (k : Nat) (d : Int) (h : k < l.length) :
    (l.set k d).take (k + 1) = l.take k ++ [d] := by
  induction l generalizing k with
  | nil => simp at h
  | cons a t ih =>
    cases k with
    | zero => simp
    | succ k =>
      simp only [List.set, List.take, List.length_cons] at h ⊢
      rw [ih k (by omega)]
      simp

theorem writeFrom_all (ds : List Int) :
    ∀ (bindings : List Int) (k : Nat), k + ds.length = bindings.length →
      writeFrom bindings k ds = bindings.take k ++ ds := by
  induction ds with
  | nil =>
    intro b k h
    rw [writeFrom, List.take_of_length_le (by simp at h; omega)]
    simp
  | cons d ds ih =>
    intro b k h
    rw [writeFrom, ih (b.set k d) (k + 1) (by simp at h ⊢; omega),
      take_succ_set b k d (by simp at h; omega)]
    simp

/-! ## Claim theorems -/

/-- C1: evidence against the claim that the simplified symbolic expression for
`z` always evaluates to the same integer as the concrete interpreter.  On the
program `inp z; mod z 5` the symbolic execution completes without panicking
(the coefficient-wise `Polynomial::modulo` rewrite fires and leaves `z` as the
raw first input), so with every input digit 7 the simplified expression
evaluates to 7, while the concrete interpreter computes `7 % 5 = 2`. -/
theorem c1_modulo_breaks_refinement :
    (State.runAll 20 State.start progC1).bind
      (fun st => (st.registers.get .z).evaluate (fun _ => 7)) = some 7 ∧
    evaluate_instructions progC1 (List.replicate 14 7) = some 2 ∧
    (7 : Int) ≠ 2 := by decide

/-- C2: evidence against the claim that every recorded backward limit contains
every register value consistent with the final `z == 0` requirement.  On
`inp w; eql w 1; eql w 9` the backward pass records the limit `[0,0]` for
register `w` after instruction 1, yet with input digit 1 the concrete value of
`w` there is 1 and the program still ends with `z = 0` (`z` is never
written). -/
theorem c2_limit_excludes_consistent_value :
    (analyze progC2).bind
      (fun infos => (infos.get? 1).map (fun i => i.limits.get .w)) =
        some (some ⟨0, 0⟩) ∧
    (evalSteps (progC2.take 2) (RegFile.const 0) (List.replicate 14 1)).map
      (fun f => f.get .w) = some 1 ∧
    evaluate_instructions progC2 (List.replicate 14 1) = some 0 ∧
    (ValueRange.mk 0 0).contains 1 = false := by decide

/-- C3: evidence against the claim that the descending-order search returns
the maximum digit sequence whose replay leaves `z = 0`.  On `progC3` (fourteen
inputs, `z` never written, so every digit sequence replays to `z = 0`) the
analysis completes and the search returns 89999999999999, although the larger
99999999999999 (all digits 9) also replays to `z = 0`: the unsound
`eql_backward` limit `[0,0]` recorded at instruction 1 prunes the first digit
9. -/
theorem c3_search_not_maximal :
    countInp progC3 = 14 ∧
    day_24_a progC3 = some 89999999999999 ∧
    evaluate_instructions progC3 (List.replicate 14 9) = some 0 ∧
    toNumber (List.replicate 14 9) = 99999999999999 ∧
    (89999999999999 : Int) < 99999999999999 := by decide

/-- C4: whenever `search` returns an answer, that answer is the fold of the
fourteen chosen digits in input order and replaying the program concretely on
those digits ends with register `z` equal to zero; and at the end of the
program `search` succeeds exactly when `z` is zero. -/
theorem c4_search_replay :
    (∀ (order : List Int) (registers : RegFile Int) (bindings : List Int)
        (k : Nat),
      search order [] registers bindings k = some (some (toNumber bindings)) ↔
        registers.z = 0) ∧
    (∀ (order : List Int) (infos : List Info) (n : Int),
      countInp (infos.map Info.instruction) = 14 →
      search order infos (RegFile.const 0) (List.replicate 14 0) 0 =
        some (some n) →
      ∃ ds : List Int, ds.length = 14 ∧ n = toNumber ds ∧
        evaluate_instructions (infos.map Info.instruction) ds = some 0) := by
  constructor
  · intro order regs binds k
    constructor
    · intro h
      by_contra hz
      rw [search, if_neg hz] at h
      injection h with h
      cases h
    · intro hz
      rw [search, if_pos hz]
  · intro order infos n hcount h
    obtain ⟨ds, hlen, regs', hsteps, hz, hn⟩ :=
      search_sound order infos _ _ _ n h
    rw [hcount] at hlen
    refine ⟨ds, hlen, ?_, ?_⟩
    · rw [hn, writeFrom_all ds _ 0 (by simp [hlen])]
      simp
    · unfold evaluate_instructions
      rw [hsteps]
      simp [hz]

/-- C4 witness: on a program of fourteen `inp w` instructions (no limits, `z`
never written) the descending search returns 99999999999999 and the theorem
produces digits replaying to `z = 0`. -/
theorem c4_witness :
    countInp (infosC4.map Info.instruction) = 14 ∧
    search [9, 8, 7, 6, 5, 4, 3, 2, 1] infosC4 (RegFile.const 0)
      (List.replicate 14 0) 0 = some (some 99999999999999) ∧
    ∃ ds : List Int, ds.length = 14 ∧ (99999999999999 : Int) = toNumber ds ∧
      evaluate_instructions (infosC4.map Info.instruction) ds = some 0 :=
  ⟨by decide, by decide,
    c4_search_replay.2 [9, 8, 7, 6, 5, 4, 3, 2, 1] infosC4 99999999999999
      (by decide) (by decide)⟩

/-- C5 counterexample: the endpoint property fails as stated.  For
`mul_backward` with known range `[2,3]` and target `[7,7]` (inside the
supported domain) the returned range is `[3,3]` but no value of `[2,3]`
multiplied by 3 lands in the target; for `div_backward_left` with known range
`[2,2]` and target `[0,0]` the returned range starts at 0, and one step below
that endpoint (`-1`) combined with 2 still lands in the target since
`-1 / 2 = 0` in truncating division. -/
theorem c5_counterexample :
    (ValueRange.mul_backward ⟨2, 3⟩ ⟨7, 7⟩ = some (some ⟨3, 3⟩) ∧
      ∀ bv : Int, (ValueRange.mk 2 3).contains bv = true →
        (ValueRange.mk 7 7).contains (3 * bv) = false) ∧
    (ValueRange.div_backward_left ⟨2, 2⟩ ⟨0, 0⟩ = some (some ⟨0, 1⟩) ∧
      (ValueRange.mk 2 2).contains 2 = true ∧
      (ValueRange.mk 0 0).contains ((-1 : Int).tdiv 2) = true) := by
  refine ⟨⟨by decide, ?_⟩, by decide, by decide, by decide⟩
  intro bv hbv
  simp only [ValueRange.contains_eq_true_iff] at hbv
  simp only [ValueRange.contains_eq_false_iff]
  omega

/-- C5 as amended: `add_backward` satisfies the endpoint property on all
well-formed inputs, and `div_backward_left` satisfies it whenever the target
range additionally lies strictly above zero; `mul_backward` is excluded, and
for `div_backward_left` a target starting at zero is excluded (see the
counterexample). -/
theorem c5_amended (b z : ValueRange) (hb : b.start ≤ b.«end»)
    (hz : z.start ≤ z.«end») :
    (ValueRange.add_backward b z =
        some (some ⟨z.start - b.«end», z.«end» - b.start⟩) ∧
      endpoint_sound (fun a bv => a + bv) b z
        ⟨z.start - b.«end», z.«end» - b.start⟩) ∧
    (1 ≤ b.start → 1 ≤ z.start →
      ValueRange.div_backward_left b z =
        some (some ⟨b.start * z.start, b.«end» * z.«end» + b.«end» - 1⟩) ∧
      endpoint_sound (fun a bv => a.tdiv bv) b z
        ⟨b.start * z.start, b.«end» * z.«end» + b.«end» - 1⟩) := by
  constructor
  · refine ⟨rfl, ?_⟩
    unfold endpoint_sound
    simp only [ValueRange.contains_eq_true_iff, ValueRange.contains_eq_false_iff]
    refine ⟨⟨b.«end», ?_⟩, fun bv hbv => ?_, ⟨b.start, ?_⟩, fun bv hbv => ?_⟩ <;>
      omega
  · intro hb1 hz1
    have hbne : b.start ≠ 0 := by omega
    have hprod : b.start * z.start ≤ b.«end» * z.«end» :=
      mul_le_mul hb hz (by omega) (by omega)
    constructor
    · unfold ValueRange.div_backward_left
      rw [if_neg (by omega), if_neg (by omega)]
      unfold ValueRange.new
      rw [if_neg (by omega)]
    · unfold endpoint_sound
      simp only [ValueRange.contains_eq_true_iff,
        ValueRange.contains_eq_false_iff]
      refine ⟨⟨b.start, ?_, ?_⟩, fun bv hbv => ?_, ⟨b.«end», ?_, ?_⟩,
        fun bv hbv => ?_⟩
      · omega
      · rw [Int.mul_tdiv_cancel_left _ hbne]
        omega
      · refine Or.inl ?_
        have hnum : (0 : Int) ≤ b.start * z.start - 1 := by nlinarith
        rw [Int.tdiv_eq_ediv hnum (by omega)]
        rw [Int.ediv_lt_iff_lt_mul (by omega : (0 : Int) < bv)]
        have h1 : z.start * b.start ≤ z.start * bv :=
          mul_le_mul_of_nonneg_left hbv.1 (by omega)
        nlinarith [h1]
      · omega
      · have hnum : (0 : Int) ≤ b.«end» * z.«end» + b.«end» - 1 := by nlinarith
        rw [Int.tdiv_eq_ediv hnum (by omega)]
        have hsplit : b.«end» * z.«end» + b.«end» - 1 =
            (b.«end» - 1) + b.«end» * z.«end» := by ring
        rw [hsplit, Int.add_mul_ediv_left _ _ (by omega : b.«end» ≠ 0),
          Int.ediv_eq_zero_of_lt (by omega) (by omega)]
        omega
      · refine Or.inr ?_
        have hplus : b.«end» * z.«end» + b.«end» - 1 + 1 =
            b.«end» * z.«end» + b.«end» := by ring
        rw [hplus]
        have hnum : (0 : Int) ≤ b.«end» * z.«end» + b.«end» := by nlinarith
        rw [Int.tdiv_eq_ediv hnum (by omega)]
        have hgoal : z.«end» + 1 ≤ (b.«end» * z.«end» + b.«end») / bv := by
          rw [Int.le_ediv_iff_mul_le (by omega : (0 : Int) < bv)]
          have h1 : (z.«end» + 1) * bv ≤ (z.«end» + 1) * b.«end» :=
            mul_le_mul_of_nonneg_left hbv.2 (by omega)
          nlinarith [h1]
        omega

/-- C5 witness: the amended theorem at the concrete ranges `b = [1,2]`,
`z = [3,5]`, with every hypothesis discharged. -/
theorem c5_witness :
    (ValueRange.add_backward ⟨1, 2⟩ ⟨3, 5⟩ = some (some ⟨1, 4⟩) ∧
      endpoint_sound (fun a bv => a + bv) ⟨1, 2⟩ ⟨3, 5⟩ ⟨1, 4⟩) ∧
    (ValueRange.div_backward_left ⟨1, 2⟩ ⟨3, 5⟩ = some (some ⟨3, 11⟩) ∧
      endpoint_sound (fun a bv => a.tdiv bv) ⟨1, 2⟩ ⟨3, 5⟩ ⟨3, 11⟩) :=
  ⟨(c5_amended ⟨1, 2⟩ ⟨3, 5⟩ (by decide) (by decide)).1,
    (c5_amended ⟨1, 2⟩ ⟨3, 5⟩ (by decide) (by decide)).2 (by decide) (by decide)⟩

/-- C6: evidence against the claim that every produced `ValueRange` satisfies
`start <= end`.  `mul_backward` builds its result with a struct literal,
bypassing the ordering check of `new`, and on the known range `[10,10]` with
target `[5,5]` (no panic: the known range excludes 0 and the target starts at
5) it returns the inverted range `[1,0]`. -/
theorem c6_mul_backward_inverted_range :
    ValueRange.mul_backward ⟨10, 10⟩ ⟨5, 5⟩ = some (some ⟨1, 0⟩) ∧
    (ValueRange.mk 1 0).«end» < (ValueRange.mk 1 0).start := by decide

/-- C7: `perform` is defined (returns an integer) for every pair of arguments
except exactly the invariant-violating cases: `Div` with a zero second
argument, and `Mod` with a zero second argument or either argument negative;
in particular `Add`, `Mul`, `Eql` and `Div` with a nonzero divisor never
panic. -/
theorem c7_perform_total_except_div_mod :
    ∀ (op : OpName) (a b : Int),
      op.perform a b = none ↔
        (op = .Div ∧ b = 0) ∨ (op = .Mod ∧ (b = 0 ∨ a < 0 ∨ b < 0)) := by
  intro op a b
  cases op <;> simp only [OpName.perform]
  case Add => simp
  case Mul => simp
  case Eql => simp
  case Div => split_ifs <;> simp_all
  case Mod => split_ifs <;> simp_all

/-- C8 counterexample: parsing does crash on an empty or whitespace-only line
(the source indexes `words[0]` before any length check), instead of returning
a descriptive error. -/
theorem c8_counterexample :
    Instruction.from_str ("") = none ∧
    Instruction.from_str ("   ") = none := by decide

/-- C8 as amended: on every line with at least one token, parsing returns a
parsed instruction or a descriptive error naming the invalid token (wrong
token count, bad register name, unknown opcode, bad right-hand operand) and
never crashes; an empty or whitespace-only line panics instead. -/
theorem c8_amended :
    (∀ s : String, tokenize s ≠ [] → (Instruction.from_str s).isSome = true) ∧
    Instruction.from_str ("inp q") = some (.error (.BadRegisterName ("q"))) ∧
    Instruction.from_str ("inp w w") =
      some (.error (.BadInstruction ("inp w w"))) ∧
    Instruction.from_str ("foo w 3") = some (.error (.NotOpName ("foo"))) ∧
    Instruction.from_str ("add w ?") =
      some (.error (.NotRegisterOrConstant ("?"))) ∧
    Instruction.from_str ("add w") =
      some (.error (.BadInstruction ("add w"))) := by
  refine ⟨?_, by decide, by decide, by decide, by decide, by decide⟩
  intro s h
  unfold Instruction.from_str
  rcases htok : tokenize s with _ | ⟨w0, rest⟩
  · exact absurd htok h
  · simp only []
    split <;> [skip; skip] <;> first
    | rfl
    | ((repeat' split) <;> simp)

/-- C8 witness: the amended theorem applied to the line `inp w`, whose token
list is nonempty. -/
theorem c8_witness :
    (Instruction.from_str ("inp w")).isSome = true :=
  c8_amended.1 ("inp w") (by decide)

/-- C9 counterexample: `get_range` is not the exact range for negative
coefficients.  For the polynomial "first input minus second input" it returns
`[0,0]` without panicking, yet at inputs 9 and 1 (both in `1..=9`) the
polynomial evaluates to 8, which is outside the returned range. -/
theorem c9_counterexample :
    Polynomial.get_range polyC9 = some ⟨0, 0⟩ ∧
    (Expr.poly polyC9).evaluate (fun i => if i.val = 0 then 9 else 1) =
      some 8 ∧
    (∀ i : Fin 14,
      1 ≤ (if (i : Fin 14).val = 0 then (9 : Int) else 1) ∧
      (if (i : Fin 14).val = 0 then (9 : Int) else 1) ≤ 9) ∧
    (ValueRange.mk 0 0).contains 8 = false := by decide

/-- C9 as amended: for every polynomial whose fourteen input coefficients are
all non-negative, `get_range` returns exactly the range of attainable values
over inputs in `1..=9`: it contains every attainable value and both ends are
attained. -/
theorem c9_amended (p : Polynomial)
    (hp : ∀ i : Fin 14, 0 ≤ p.coefficients i.castSucc) :
    range_exact p := by
  have hmono : (∑ i : Fin 14, p.coefficients i.castSucc * 1) ≤
      ∑ i : Fin 14, p.coefficients i.castSucc * 9 :=
    Finset.sum_le_sum fun i _ => by have := hp i; nlinarith
  have hle : p.get_range_start ≤ p.get_range_end := by
    unfold Polynomial.get_range_start Polynomial.get_range_end
    omega
  refine ⟨?_, ?_, ?_, ?_⟩
  · unfold Polynomial.get_range ValueRange.new
    rw [if_neg (by omega)]
  · intro inputs hin
    refine ⟨_, rfl, ?_, ?_⟩
    · unfold Polynomial.get_range_start
      have hs : (∑ i : Fin 14, p.coefficients i.castSucc * 1) ≤
          ∑ i : Fin 14, inputs i * p.coefficients i.castSucc :=
        Finset.sum_le_sum fun i _ => by
          have h0 := hp i
          have h1 := (hin i).1
          nlinarith
      omega
    · unfold Polynomial.get_range_end
      have hs : (∑ i : Fin 14, inputs i * p.coefficients i.castSucc) ≤
          ∑ i : Fin 14, p.coefficients i.castSucc * 9 :=
        Finset.sum_le_sum fun i _ => by
          have h0 := hp i
          have h1 := (hin i).2
          nlinarith
      omega
  · simp only [Expr.evaluate, Polynomial.get_range_start]
    have hsum : (∑ i : Fin 14, (1 : Int) * p.coefficients i.castSucc) =
        ∑ i : Fin 14, p.coefficients i.castSucc * 1 :=
      Finset.sum_congr rfl fun i _ => by ring
    rw [hsum]
  · simp only [Expr.evaluate, Polynomial.get_range_end]
    have hsum : (∑ i : Fin 14, (9 : Int) * p.coefficients i.castSucc) =
        ∑ i : Fin 14, p.coefficients i.castSucc * 9 :=
      Finset.sum_congr rfl fun i _ => by ring
    rw [hsum]

/-- C9 witness: the amended theorem at the constant polynomial 3, whose input
coefficients are all zero. -/
theorem c9_witness :
    (∀ i : Fin 14, 0 ≤ (Polynomial.constant 3).coefficients i.castSucc) ∧
    range_exact (Polynomial.constant 3) :=
  ⟨by decide, c9_amended (Polynomial.constant 3) (by decide)⟩

/-- C10: every state-advancing step touches only the destination register:
`ranges_after` leaves the other three ranges unchanged, `State.after` leaves
the other three symbolic register expressions unchanged, and the `Operate`
step of `search` leaves the other three concrete register values unchanged. -/
theorem c10_frame_effects :
    (∀ (prev_ranges : Ranges) (instruction : Instruction) (out : Ranges),
      ranges_after prev_ranges instruction = some out →
      ∀ r : RegisterName, r ≠ instruction.dest →
        out.get r = prev_ranges.get r) ∧
    (∀ (fuel : Nat) (s : State) (instruction : Instruction) (s' : State),
      State.after fuel s instruction = some s' →
      ∀ r : RegisterName, r ≠ instruction.dest →
        s'.registers.get r = s.registers.get r) ∧
    (∀ (registers : RegFile Int) (op_name : OpName)
      (register : RegisterName) (rhs : RegisterOrConstant)
      (limit : Option ValueRange) (registers' : RegFile Int),
      searchStep registers op_name register rhs limit =
        some (some registers') →
      ∀ r : RegisterName, r ≠ register → registers'.get r = registers.get r) := by
  refine ⟨?_, ?_, ?_⟩
  · intro prev instruction out hout r hr
    cases instruction with
    | Inp rn =>
      simp only [ranges_after] at hout
      injection hout with hout
      rw [← hout]
      exact RegFile.get_set_ne prev rn r _ (by simpa [Instruction.dest] using hr)
    | Op op rn rhs =>
      simp only [ranges_after] at hout
      split at hout
      · exact Option.noConfusion hout
      · injection hout with hout
        rw [← hout]
        exact RegFile.get_set_ne prev rn r _
          (by simpa [Instruction.dest] using hr)
  · intro fuel s instruction s' hs r hr
    cases instruction with
    | Inp rn =>
      simp only [State.after] at hs
      split at hs
      · injection hs with hs
        rw [← hs]
        exact RegFile.get_set_ne s.registers rn r _
          (by simpa [Instruction.dest] using hr)
      · exact Option.noConfusion hs
    | Op op rn rhs =>
      simp only [State.after] at hs
      split at hs
      · exact Option.noConfusion hs
      · injection hs with hs
        rw [← hs]
        exact RegFile.get_set_ne s.registers rn r _
          (by simpa [Instruction.dest] using hr)
  · intro registers op_name register rhs limit registers' hstep r hr
    simp only [searchStep] at hstep
    split at hstep
    next => exact Option.noConfusion hstep
    next v heq =>
      split at hstep
      · split at hstep
        · injection hstep with h1
          injection h1 with h2
          rw [← h2]
          exact RegFile.get_set_ne registers register r _ hr
        · injection hstep with h1
          exact Option.noConfusion h1
      · injection hstep with h1
        injection h1 with h2
        rw [← h2]
        exact RegFile.get_set_ne registers register r _ hr

/-- C10 witness: the frame property of `ranges_after` at a concrete
instruction writing register `z`, checked at register `w`. -/
theorem c10_witness :
    ranges_after startRanges (.Op .Add .z (.Constant 1)) =
      some ⟨⟨0, 0⟩, ⟨0, 0⟩, ⟨0, 0⟩, ⟨1, 1⟩⟩ ∧
    RegisterName.w ≠ (Instruction.Op .Add .z (.Constant 1)).dest ∧
    (⟨⟨0, 0⟩, ⟨0, 0⟩, ⟨0, 0⟩, ⟨1, 1⟩⟩ : Ranges).get .w = startRanges.get .w :=
  ⟨by decide, by decide,
    c10_frame_effects.1 startRanges (.Op .Add .z (.Constant 1))
      ⟨⟨0, 0⟩, ⟨0, 0⟩, ⟨0, 0⟩, ⟨1, 1⟩⟩ (by decide) .w (by decide)⟩

end Aoc21
